import Mathlib

/-!
# Verification of the pyyeti exact ODE integration core

The package declares an ODE integration core (`pyyeti.ode`): a time-domain
solver for coupled linear time-invariant second-order equations of motion
M x'' + C x' + K x = f(t) on a uniform time grid, solved exactly per mode
via discrete state-transition matrices.  The core's source is not part of
this tree (only its package declaration, test data decks and documentation
are), so every definition below is modelled from the specification of that
core: mode separation, damping-regime classification, the closed-form
transition-matrix pair (A, B) per regime and forcing-interpolation order,
the per-mode step recurrence, the modal round trip, the algebraic
acceleration recovery, and the entry validation.
-/

namespace PyYeti

open Matrix Topology Filter

/-- Modelled from the spec: error taxonomy of the core (§7).  `shapeError` for
mismatched / non-square matrix dimensions or mismatched initial-condition
size, `degenerateMode` for a negative natural frequency, `unsupportedOrder`
for an unrecognized interpolation setting. -/
inductive SolveError where
  | shapeError
  | degenerateMode
  | unsupportedOrder
deriving DecidableEq, Repr

/-- Modelled from the spec: selectable forcing-interpolation order (§4.2):
constant-over-step, linear-between-samples (default), locally quadratic. -/
inductive InterpOrder where
  | constant
  | linear
  | quadratic
deriving DecidableEq, Repr

/-- Modelled from the spec: the interpolation-order setting is a textual
configuration value; an unrecognized setting is the
`UnsupportedInterpolationOrder` failure. -/
def parseOrder (s : String) : Option InterpOrder :=
  if s = "constant" then some InterpOrder.constant
  else if s = "linear" then some InterpOrder.linear
  else if s = "quadratic" then some InterpOrder.quadratic
  else none

/-- Modelled from the spec: the four damping regimes of §4.2, a tagged
variant per design note §9. -/
inductive Regime where
  | rigid
  | under
  | critical
  | over
deriving DecidableEq, Repr

/-- Modelled from the spec: deterministic regime classification of a mode by
(ω, ζ) with tolerance policy parameters: rigid body when ω is at or below the
zero-frequency tolerance, otherwise underdamped for ζ below 1 − ζtol,
critically damped for ζ within ζtol of 1, overdamped above. -/
noncomputable def classify (ωtol ζtol ω ζ : ℝ) : Regime :=
  if ω ≤ ωtol then Regime.rigid
  else if ζ < 1 - ζtol then Regime.under
  else if ζ ≤ 1 + ζtol then Regime.critical
  else Regime.over

/-- A transition pair: the 2×2 state-transition matrix A and the 2×2
force-influence matrix B acting on the forcing window. -/
abbrev TransPair (α : Type) := Matrix (Fin 2) (Fin 2) α × Matrix (Fin 2) (Fin 2) α

/-- Modelled from the spec: exact underdamped state-transition matrix
(decaying-sinusoid basis, damped frequency ω_d = ω√(1−ζ²)), advancing
(displacement, velocity) of q'' + 2ζω q' + ω² q = p over one step h. -/
noncomputable def underA (ω ζ h : ℝ) : Matrix (Fin 2) (Fin 2) ℝ :=
  let ωd := ω * Real.sqrt (1 - ζ ^ 2)
  let F := Real.exp (-(ζ * ω * h))
  ![![F * (Real.cos (ωd * h) + ζ * ω * (Real.sin (ωd * h) / ωd)),
     F * (Real.sin (ωd * h) / ωd)],
    ![-(ω ^ 2) * (F * (Real.sin (ωd * h) / ωd)),
     F * (Real.cos (ωd * h) - ζ * ω * (Real.sin (ωd * h) / ωd))]]

/-- Modelled from the spec: critically damped limiting polynomial form
(ζ = 1, singularity removed analytically); contains no division and no ζ. -/
noncomputable def critA (ω h : ℝ) : Matrix (Fin 2) (Fin 2) ℝ :=
  let E := Real.exp (-(ω * h))
  ![![E * (1 + ω * h), E * h],
    ![-(ω ^ 2) * (E * h), E * (1 - ω * h)]]

/-- Modelled from the spec: exact overdamped state-transition matrix
(hyperbolic basis, ω_h = ω√(ζ²−1)). -/
noncomputable def overA (ω ζ h : ℝ) : Matrix (Fin 2) (Fin 2) ℝ :=
  let ωh := ω * Real.sqrt (ζ ^ 2 - 1)
  let F := Real.exp (-(ζ * ω * h))
  ![![F * (Real.cosh (ωh * h) + ζ * ω * (Real.sinh (ωh * h) / ωh)),
     F * (Real.sinh (ωh * h) / ωh)],
    ![-(ω ^ 2) * (F * (Real.sinh (ωh * h) / ωh)),
     F * (Real.cosh (ωh * h) - ζ * ω * (Real.sinh (ωh * h) / ωh))]]

/-- Modelled from the spec: rigid-body transition matrix (ω ≈ 0), direct
double integration of force — a function of h alone, no ω and no ζ. -/
noncomputable def rigidA (h : ℝ) : Matrix (Fin 2) (Fin 2) ℝ :=
  ![![1, h], ![0, 1]]

/-- Modelled from the spec: rigid-body force-influence matrix by direct double
integration of the interpolated force over one step — a function of (h, order)
alone, no ω and no ζ.  The spec names a locally quadratic order but fixes no
closed form for it and the step recurrence of §4.3 consumes only the sample
pair (force(k), force(k+1)), which determines at most a linear reconstruction;
the model therefore gives the quadratic setting the linear pair form. -/
noncomputable def rigidB (h : ℝ) (ord : InterpOrder) : Matrix (Fin 2) (Fin 2) ℝ :=
  match ord with
  | InterpOrder.constant => ![![h ^ 2 / 2, 0], ![h, 0]]
  | InterpOrder.linear => ![![h ^ 2 / 3, h ^ 2 / 6], ![h / 2, h / 2]]
  | InterpOrder.quadratic => ![![h ^ 2 / 3, h ^ 2 / 6], ![h / 2, h / 2]]

/-- Modelled from the spec: exact force-influence matrix for an oscillatory
regime, derived from the regime's state-transition matrix A by the exact
particular solutions for a constant and a linearly interpolated force
(q_p = c/ω² for constant force c; q_p = s·t/ω² − 2ζs/ω³ for ramp slope s).
Divides only by ω², ω³ and h. -/
noncomputable def forceB (A : Matrix (Fin 2) (Fin 2) ℝ) (ω ζ h : ℝ)
    (ord : InterpOrder) : Matrix (Fin 2) (Fin 2) ℝ :=
  let con1 := (1 - A 0 0) / ω ^ 2
  let con2 := -(A 1 0) / ω ^ 2
  let r1 := 2 * ζ * (A 0 0 - 1) / ω ^ 3 - A 0 1 / ω ^ 2 + h / ω ^ 2
  let r2 := 2 * ζ * (A 1 0) / ω ^ 3 + (1 - A 1 1) / ω ^ 2
  match ord with
  | InterpOrder.constant => ![![con1, 0], ![con2, 0]]
  | InterpOrder.linear => ![![con1 - r1 / h, r1 / h], ![con2 - r2 / h, r2 / h]]
  | InterpOrder.quadratic => ![![con1 - r1 / h, r1 / h], ![con2 - r2 / h, r2 / h]]

/-- Modelled from the spec: the exact closed-form transition pair of one
regime.  The critically damped branch uses the limiting value ζ = 1 so its
output carries no dependence on the mode's ζ; the rigid branch carries no
dependence on ω or ζ at all. -/
noncomputable def pairFor (reg : Regime) (ω ζ h : ℝ) (ord : InterpOrder) :
    TransPair ℝ :=
  match reg with
  | Regime.rigid => (rigidA h, rigidB h ord)
  | Regime.under => (underA ω ζ h, forceB (underA ω ζ h) ω ζ h ord)
  | Regime.critical => (critA ω h, forceB (critA ω h) ω 1 h ord)
  | Regime.over => (overA ω ζ h, forceB (overA ω ζ h) ω ζ h ord)

/-- Modelled from the spec: the transition pair chosen for a mode after
classification. -/
noncomputable def buildPair (ωtol ζtol ω ζ h : ℝ) (ord : InterpOrder) :
    TransPair ℝ :=
  pairFor (classify ωtol ζtol ω ζ) ω ζ h ord

/-- Modelled from the spec: the transition-matrix builder.  Fails with
`DegenerateModeError` if ω is negative; otherwise classifies the mode and
produces its exact transition pair. -/
noncomputable def buildTransition (ωtol ζtol ω ζ h : ℝ) (ord : InterpOrder) :
    Except SolveError (TransPair ℝ) :=
  if ω < 0 then Except.error SolveError.degenerateMode
  else Except.ok (buildPair ωtol ζtol ω ζ h ord)

/-- Modelled from the spec: one step of the per-mode state machine (§4.3):
new_state = A·state + B·[force(k), force(k+1)], written entrywise as the
branch-free hot-loop scalar form of design note §9. -/
def advance {α : Type} [CommRing α] (P : TransPair α) (st : Fin 2 → α)
    (f0 f1 : α) : Fin 2 → α :=
  ![P.1 0 0 * st 0 + P.1 0 1 * st 1 + P.2 0 0 * f0 + P.2 0 1 * f1,
    P.1 1 0 * st 0 + P.1 1 1 * st 1 + P.2 1 0 * f0 + P.2 1 1 * f1]

/-- Modelled from the spec: the step-integrator recursion (§4.3).  The modal
state of every mode after k steps: step k feeds each mode its own transition
pair and its own forcing window (force(k), force(k+1)). -/
def stateAt {α : Type} [CommRing α] {m : ℕ} (pairs : Fin m → TransPair α)
    (mf : Fin m → ℕ → α) (init : Fin m → Fin 2 → α) : ℕ → Fin m → Fin 2 → α
  | 0 => init
  | k + 1 => fun i =>
      advance (pairs i) (stateAt pairs mf init k i) (mf i k) (mf i (k + 1))

/-- Modelled from the spec: physical → modal transform.  Mode separation
yields a mass-normalized modal matrix Φ (Φᵀ M Φ = 1), so the physical→modal
direction is Φᵀ M. -/
def toModal {α : Type} [CommRing α] {n : ℕ}
    (Φ M : Matrix (Fin n) (Fin n) α) (x : Fin n → α) : Fin n → α :=
  (Φ.transpose * M) *ᵥ x

/-- Modelled from the spec: modal → physical transform, x = Φ q. -/
def toPhysical {α : Type} [CommRing α] {n : ℕ}
    (Φ : Matrix (Fin n) (Fin n) α) (q : Fin n → α) : Fin n → α :=
  Φ *ᵥ q

/-- Modelled from the spec: the response history (§3): time vector plus
displacement / velocity / acceleration sample sequences, each sample a
length-n vector over the DOFs. -/
structure ResponseHistory (n : ℕ) (α : Type) where
  times : List α
  disp : List (Fin n → α)
  vel : List (Fin n → α)
  accel : List (Fin n → α)

/-- Modelled from the spec: initial modal state at k = 0, the caller-supplied
initial displacement and velocity transformed into modal coordinates. -/
def initState {α : Type} [CommRing α] {n : ℕ}
    (Φ M : Matrix (Fin n) (Fin n) α) (x0 v0 : Fin n → α) :
    Fin n → Fin 2 → α :=
  fun i => ![toModal Φ M x0 i, toModal Φ M v0 i]

/-- Modelled from the spec: the forcing samples transformed into modal
coordinates (Φᵀ f), read per mode. -/
def modalForce {α : Type} [CommRing α] {n : ℕ}
    (Φ : Matrix (Fin n) (Fin n) α) (f : ℕ → Fin n → α) : Fin n → ℕ → α :=
  fun i k => (Φ.transpose *ᵥ f k) i

/-- Modelled from the spec: physical displacement at sample k, the modal
displacements transformed back through the modal transform. -/
def dispAt {α : Type} [CommRing α] {n : ℕ}
    (Φ M : Matrix (Fin n) (Fin n) α) (pairs : Fin n → TransPair α)
    (f : ℕ → Fin n → α) (x0 v0 : Fin n → α) (k : ℕ) : Fin n → α :=
  toPhysical Φ
    (fun i => stateAt pairs (modalForce Φ f) (initState Φ M x0 v0) k i 0)

/-- Modelled from the spec: physical velocity at sample k. -/
def velAt {α : Type} [CommRing α] {n : ℕ}
    (Φ M : Matrix (Fin n) (Fin n) α) (pairs : Fin n → TransPair α)
    (f : ℕ → Fin n → α) (x0 v0 : Fin n → α) (k : ℕ) : Fin n → α :=
  toPhysical Φ
    (fun i => stateAt pairs (modalForce Φ f) (initState Φ M x0 v0) k i 1)

/-- Modelled from the spec: acceleration at sample k, recovered algebraically
from the equation of motion as a = M⁻¹ (f − C v − K x) — never by
differentiating the displacement history. -/
noncomputable def accelAt {α : Type} [CommRing α] {n : ℕ}
    (Φ M C K : Matrix (Fin n) (Fin n) α) (pairs : Fin n → TransPair α)
    (f : ℕ → Fin n → α) (x0 v0 : Fin n → α) (k : ℕ) : Fin n → α :=
  M⁻¹ *ᵥ (f k - C *ᵥ velAt Φ M pairs f x0 v0 k - K *ᵥ dispAt Φ M pairs f x0 v0 k)

/-- Modelled from the spec: the solver core over decoupled modes.  Given the
modal matrix Φ produced by mode separation, the system matrices, the
per-mode transition pairs and s force samples, it integrates every mode over
the uniform grid and assembles the response history: sample k of each output
list is the response at time k·Δt, and the lists have exactly s entries. -/
noncomputable def solveCore {α : Type} [Field α] {n : ℕ} (s : ℕ)
    (Φ M C K : Matrix (Fin n) (Fin n) α) (dt : α)
    (pairs : Fin n → TransPair α) (f : ℕ → Fin n → α) (x0 v0 : Fin n → α) :
    ResponseHistory n α :=
  { times := (List.range s).map (fun k => (Nat.cast k : α) * dt)
    disp := (List.range s).map (dispAt Φ M pairs f x0 v0)
    vel := (List.range s).map (velAt Φ M pairs f x0 v0)
    accel := (List.range s).map (accelAt Φ M C K pairs f x0 v0) }

lemma stateAt_zero {α : Type} [CommRing α] {m : ℕ} (pairs : Fin m → TransPair α)
    (mf : Fin m → ℕ → α) (init : Fin m → Fin 2 → α) :
    stateAt pairs mf init 0 = init := rfl

lemma stateAt_succ {α : Type} [CommRing α] {m : ℕ} (pairs : Fin m → TransPair α)
    (mf : Fin m → ℕ → α) (init : Fin m → Fin 2 → α) (k : ℕ) :
    stateAt pairs mf init (k + 1) = fun i =>
      advance (pairs i) (stateAt pairs mf init k i) (mf i k) (mf i (k + 1)) := rfl

/-- The state of mode i after k steps depends only on mode i's transition
pair, mode i's forcing samples up to index k, and mode i's initial state. -/
lemma stateAt_mode_congr {α : Type} [CommRing α] {m : ℕ}
    (pairs pairs' : Fin m → TransPair α) (mf mf' : Fin m → ℕ → α)
    (init init' : Fin m → Fin 2 → α) (i : Fin m)
    (hp : pairs i = pairs' i) (hi : init i = init' i) :
    ∀ k : ℕ, (∀ j, j ≤ k → mf i j = mf' i j) →
      stateAt pairs mf init k i = stateAt pairs' mf' init' k i := by
  intro k
  induction k with
  | zero => intro _; simpa [stateAt_zero] using hi
  | succ k ih =>
      intro hf
      simp only [stateAt_succ]
      rw [hp, ih (fun j hj => hf j (Nat.le_succ_of_le hj)),
        hf k (Nat.le_succ k), hf (k + 1) (Nat.le_refl _)]

/-- Reading a sample out of a history list built over `List.range`. -/
lemma getD_map_range {β : Type} (g : ℕ → β) (d : β) {s k : ℕ} (hk : k < s) :
    (((List.range s).map g).getD k d) = g k := by
  rw [List.getD_eq_getElem?_getD, List.getElem?_map, List.getElem?_range hk]
  rfl

/-- Mass-normalization of the modal matrix makes the physical→modal→physical
round trip the identity. -/
lemma modal_roundtrip_aux {n : ℕ} (Φ M : Matrix (Fin n) (Fin n) ℝ)
    (hΦ : Φ.transpose * M * Φ = 1) (x : Fin n → ℝ) :
    toPhysical Φ (toModal Φ M x) = x := by
  unfold toPhysical toModal
  rw [mulVec_mulVec, Matrix.mul_eq_one_comm.mp hΦ, one_mulVec]

/-- Claim C1: for every mode and step, the integrator advances the
two-component modal state by new_state = A·state + B·[force(k), force(k+1)]
with the mode's fixed transition pair, and the recurrence for one mode never
reads the pair, forcing or state of any other mode. -/
theorem claim_C1_step_recurrence_independent (m : ℕ)
    (pairs : Fin m → TransPair ℝ) (mf : Fin m → ℕ → ℝ)
    (init : Fin m → Fin 2 → ℝ) :
    (∀ (k : ℕ) (i : Fin m),
      stateAt pairs mf init (k + 1) i =
        (pairs i).1 *ᵥ stateAt pairs mf init k i +
          (pairs i).2 *ᵥ ![mf i k, mf i (k + 1)]) ∧
    (∀ (pairs' : Fin m → TransPair ℝ) (mf' : Fin m → ℕ → ℝ)
      (init' : Fin m → Fin 2 → ℝ) (i : Fin m),
      pairs i = pairs' i → (∀ j, mf i j = mf' i j) → init i = init' i →
      ∀ k, stateAt pairs mf init k i = stateAt pairs' mf' init' k i) := by
  constructor
  · intro k i
    rw [stateAt_succ]
    funext t
    fin_cases t <;>
      simp [advance, Matrix.mulVec, dotProduct, Fin.sum_univ_two] <;> ring
  · intro pairs' mf' init' i hp hf hi k
    exact stateAt_mode_congr pairs pairs' mf mf' init init' i hp hi k
      (fun j _ => hf j)

/-- Witness for C1 at a concrete two-mode configuration whose second mode
differs between the two runs. -/
theorem claim_C1_witness :
    ((fun _ : Fin 2 => ((1, 0) : TransPair ℝ)) 0 =
      (fun i : Fin 2 => if i = 0 then ((1, 0) : TransPair ℝ) else (0, 0)) 0) ∧
    stateAt (fun _ : Fin 2 => ((1, 0) : TransPair ℝ)) (fun _ _ => 0)
        (fun _ => ![0, 0]) 3 0 =
      stateAt (fun i : Fin 2 => if i = 0 then ((1, 0) : TransPair ℝ) else (0, 0))
        (fun i k => if i = 0 then 0 else (k : ℝ))
        (fun i => if i = 0 then ![0, 0] else ![1, 1]) 3 0 := by
  refine ⟨rfl, ?_⟩
  exact (claim_C1_step_recurrence_independent 2 (fun _ => (1, 0)) (fun _ _ => 0)
    (fun _ => ![0, 0])).2
    (fun i => if i = 0 then (1, 0) else (0, 0))
    (fun i k => if i = 0 then 0 else (k : ℝ))
    (fun i => if i = 0 then ![0, 0] else ![1, 1]) 0 rfl (fun _ => rfl) rfl 3

/-- Claim C2: for every valid solve, the returned acceleration history
satisfies M·a = f − C·v − K·x at every sample, where x and v are the returned
displacement and velocity at that sample; a is defined algebraically from the
equation of motion, not by differentiating the displacement history. -/
theorem claim_C2_accel_equation_of_motion {n : ℕ} (s : ℕ)
    (Φ M C K : Matrix (Fin n) (Fin n) ℝ) (dt : ℝ)
    (pairs : Fin n → TransPair ℝ) (f : ℕ → Fin n → ℝ) (x0 v0 : Fin n → ℝ)
    (hM : IsUnit M.det) (k : ℕ) (hk : k < s) :
    M *ᵥ ((solveCore s Φ M C K dt pairs f x0 v0).accel.getD k 0) =
      f k - C *ᵥ ((solveCore s Φ M C K dt pairs f x0 v0).vel.getD k 0) -
        K *ᵥ ((solveCore s Φ M C K dt pairs f x0 v0).disp.getD k 0) := by
  unfold solveCore
  rw [getD_map_range _ _ hk, getD_map_range _ _ hk, getD_map_range _ _ hk]
  unfold accelAt
  rw [mulVec_mulVec, Matrix.mul_nonsing_inv M hM, one_mulVec]

/-- Witness for C2 on a concrete one-DOF system. -/
theorem claim_C2_witness :
    IsUnit (Matrix.det (1 : Matrix (Fin 1) (Fin 1) ℝ)) ∧ (0 : ℕ) < 1 ∧
    (1 : Matrix (Fin 1) (Fin 1) ℝ) *ᵥ
        ((solveCore 1 1 1 0 0 (1 : ℝ) (fun _ => (1, 0)) (fun _ _ => 0) 0 0).accel.getD 0 0) =
      (fun _ => (0 : ℝ)) -
        (0 : Matrix (Fin 1) (Fin 1) ℝ) *ᵥ
          ((solveCore 1 1 1 0 0 (1 : ℝ) (fun _ => (1, 0)) (fun _ _ => 0) 0 0).vel.getD 0 0) -
        (0 : Matrix (Fin 1) (Fin 1) ℝ) *ᵥ
          ((solveCore 1 1 1 0 0 (1 : ℝ) (fun _ => (1, 0)) (fun _ _ => 0) 0 0).disp.getD 0 0) :=
  ⟨by simp, by decide,
    claim_C2_accel_equation_of_motion 1 1 1 0 0 (1 : ℝ) (fun _ => (1, 0))
      (fun _ _ => 0) 0 0 (by simp) 0 (by decide)⟩

/-- Claim C3: for n DOFs and s force samples the solver returns displacement,
velocity and acceleration histories of exactly s samples of n-vectors, and a
time vector of length exactly s. -/
theorem claim_C3_output_shape {n : ℕ} (s : ℕ)
    (Φ M C K : Matrix (Fin n) (Fin n) ℝ) (dt : ℝ)
    (pairs : Fin n → TransPair ℝ) (f : ℕ → Fin n → ℝ) (x0 v0 : Fin n → ℝ) :
    (solveCore s Φ M C K dt pairs f x0 v0).times.length = s ∧
    (solveCore s Φ M C K dt pairs f x0 v0).disp.length = s ∧
    (solveCore s Φ M C K dt pairs f x0 v0).vel.length = s ∧
    (solveCore s Φ M C K dt pairs f x0 v0).accel.length = s := by
  have hlen : ∀ g : ℕ → ℝ, ((List.range s).map g).length = s := by
    intro g; rw [List.length_map, List.length_range]
  have hlenv : ∀ g : ℕ → Fin n → ℝ, ((List.range s).map g).length = s := by
    intro g; rw [List.length_map, List.length_range]
  exact ⟨hlen _, hlenv _, hlenv _, hlenv _⟩

/-- Claim C4: sample 0 of the returned displacement and velocity histories is
the caller-supplied initial condition itself, not a stepped result. -/
theorem claim_C4_initial_sample {n : ℕ} (s : ℕ)
    (Φ M C K : Matrix (Fin n) (Fin n) ℝ) (dt : ℝ)
    (pairs : Fin n → TransPair ℝ) (f : ℕ → Fin n → ℝ) (x0 v0 : Fin n → ℝ)
    (hΦ : Φ.transpose * M * Φ = 1) (hs : 0 < s) :
    (solveCore s Φ M C K dt pairs f x0 v0).disp.getD 0 0 = x0 ∧
    (solveCore s Φ M C K dt pairs f x0 v0).vel.getD 0 0 = v0 := by
  unfold solveCore
  rw [getD_map_range _ _ hs, getD_map_range _ _ hs]
  unfold dispAt velAt
  rw [stateAt_zero]
  constructor
  · have : (fun i => initState Φ M x0 v0 i 0) = toModal Φ M x0 := by
      funext i; simp [initState]
    rw [this, modal_roundtrip_aux Φ M hΦ]
  · have : (fun i => initState Φ M x0 v0 i 1) = toModal Φ M v0 := by
      funext i; simp [initState]
    rw [this, modal_roundtrip_aux Φ M hΦ]

/-- Witness for C4 on a concrete one-DOF system with nonzero initial data. -/
theorem claim_C4_witness :
    (Matrix.transpose (1 : Matrix (Fin 1) (Fin 1) ℝ) * 1 * 1 = 1) ∧ (0 : ℕ) < 2 ∧
    (solveCore 2 (1 : Matrix (Fin 1) (Fin 1) ℝ) 1 0 0 (1 : ℝ) (fun _ => (1, 0))
        (fun _ _ => 0) (fun _ => 3) (fun _ => 5)).disp.getD 0 0 = (fun _ => (3 : ℝ)) ∧
    (solveCore 2 (1 : Matrix (Fin 1) (Fin 1) ℝ) 1 0 0 (1 : ℝ) (fun _ => (1, 0))
        (fun _ _ => 0) (fun _ => 3) (fun _ => 5)).vel.getD 0 0 = (fun _ => (5 : ℝ)) := by
  refine ⟨by simp, by decide, ?_⟩
  exact claim_C4_initial_sample 2 (1 : Matrix (Fin 1) (Fin 1) ℝ) 1 0 0 (1 : ℝ)
    (fun _ => (1, 0)) (fun _ _ => 0) (fun _ => 3) (fun _ => 5) (by simp) (by decide)

/-- Claim C8: transforming any initial-condition vector from physical to
modal coordinates and back through the (mass-normalized, hence M
non-singular) modal transform reproduces the original vector. -/
theorem claim_C8_modal_roundtrip {n : ℕ} (Φ M : Matrix (Fin n) (Fin n) ℝ)
    (x : Fin n → ℝ) (hΦ : Φ.transpose * M * Φ = 1) :
    toPhysical Φ (toModal Φ M x) = x :=
  modal_roundtrip_aux Φ M hΦ x

/-- Witness for C8 with a non-trivial modal matrix Φ = [[2]], M = [[1/4]]. -/
theorem claim_C8_witness :
    (Matrix.transpose (Matrix.of ![![(2 : ℝ)]]) * Matrix.of ![![(1 : ℝ)/4]] *
        Matrix.of ![![(2 : ℝ)]] = 1) ∧
    toPhysical (Matrix.of ![![(2 : ℝ)]])
        (toModal (Matrix.of ![![(2 : ℝ)]]) (Matrix.of ![![(1 : ℝ)/4]]) (fun _ => 7)) =
      (fun _ => (7 : ℝ)) := by
  have h : Matrix.transpose (Matrix.of ![![(2 : ℝ)]]) * Matrix.of ![![(1 : ℝ)/4]] *
      Matrix.of ![![(2 : ℝ)]] = 1 := by
    ext i j
    fin_cases i; fin_cases j
    norm_num [Matrix.mul_apply, Fin.sum_univ_one, Matrix.one_apply]
  exact ⟨h, claim_C8_modal_roundtrip (Matrix.of ![![(2 : ℝ)]])
    (Matrix.of ![![(1 : ℝ)/4]]) (fun _ => 7) h⟩

/-- Modelled from the spec: the raw inputs of the exposed `solve` operation
(§6): mass / damping / stiffness matrices, uniform step Δt, the n×m forcing
samples, optional initial displacement and velocity (defaulting to rest), and
the interpolation-order setting. -/
structure RawInput where
  mMat : List (List ℝ)
  cMat : List (List ℝ)
  kMat : List (List ℝ)
  dt : ℝ
  force : List (List ℝ)
  x0 : Option (List ℝ)
  v0 : Option (List ℝ)
  order : String

/-- The number of degrees of freedom (and, for the decoupled model, of
modes): the row count of the mass matrix. -/
def dofCount (inp : RawInput) : ℕ := inp.mMat.length

/-- A raw matrix is square of size n. -/
def squareOf (a : List (List ℝ)) (n : ℕ) : Prop :=
  a.length = n ∧ ∀ r ∈ a, r.length = n

/-- Modelled from the spec: the entry validation (§4.1, §4.4, §7) — the mass,
damping and stiffness matrices must all be square and of equal size, and any
caller-supplied initial-condition vector must match the mode count. -/
def ShapesValid (inp : RawInput) : Prop :=
  squareOf inp.mMat (dofCount inp) ∧ squareOf inp.cMat (dofCount inp) ∧
  squareOf inp.kMat (dofCount inp) ∧
  (∀ ic ∈ inp.x0, ic.length = dofCount inp) ∧
  (∀ ic ∈ inp.v0, ic.length = dofCount inp)

/-- Raw list-of-rows to an n×n matrix (absent entries read as 0). -/
def toMatrix (a : List (List ℝ)) (n : ℕ) : Matrix (Fin n) (Fin n) ℝ :=
  Matrix.of fun i j => ((a.getD i []).getD j 0)

/-- Optional initial-condition vector, defaulting to rest. -/
def icVec (o : Option (List ℝ)) (n : ℕ) : Fin n → ℝ :=
  fun i => ((o.getD []).getD i 0)

/-- Forcing samples as a function of sample index (row = DOF, column =
sample). -/
def forceFun (a : List (List ℝ)) (n : ℕ) : ℕ → Fin n → ℝ :=
  fun k i => ((a.getD i []).getD k 0)

/-- The input sample count. -/
def sampleCount (inp : RawInput) : ℕ := (inp.force.headD []).length

/-- Modelled from the spec: documented default of the configurable
zero-frequency tolerance (design note §9). -/
noncomputable def omegaTolDefault : ℝ := 1 / 10 ^ 8

/-- Modelled from the spec: documented default of the configurable
critical-damping tolerance band (design note §9). -/
noncomputable def zetaTolDefault : ℝ := 1 / 10 ^ 8

/-- Modelled from the spec: mode separation for a system whose matrices are
already diagonal (§3 allows this; the general eigendecoupling has no closed
form to embed): ω_i = √(K_ii / M_ii). -/
noncomputable def modeOmega (inp : RawInput) (i : Fin (dofCount inp)) : ℝ :=
  Real.sqrt (toMatrix inp.kMat (dofCount inp) i i /
    toMatrix inp.mMat (dofCount inp) i i)

/-- Modelled from the spec: damping ratio of a diagonal mode,
ζ_i = C_ii / (2 √(K_ii M_ii)). -/
noncomputable def modeZeta (inp : RawInput) (i : Fin (dofCount inp)) : ℝ :=
  toMatrix inp.cMat (dofCount inp) i i /
    (2 * Real.sqrt (toMatrix inp.kMat (dofCount inp) i i *
      toMatrix inp.mMat (dofCount inp) i i))

/-- Modelled from the spec: mass-normalized modal matrix of a diagonal
system, Φ = diag(1/√M_ii). -/
noncomputable def modalMat (inp : RawInput) :
    Matrix (Fin (dofCount inp)) (Fin (dofCount inp)) ℝ :=
  Matrix.diagonal (fun i => (Real.sqrt (toMatrix inp.mMat (dofCount inp) i i))⁻¹)

/-- Modelled from the spec: the exposed `solve` operation (§6).  Validation
runs first, at entry: invalid shapes fail with `ShapeError` before anything
else is computed; then the interpolation setting is parsed (failing with
`UnsupportedInterpolationOrder` if unrecognized); then the modes are
separated, their transition pairs built once, and the core integrates. -/
noncomputable def solveTop (inp : RawInput) :
    Except SolveError (ResponseHistory (dofCount inp) ℝ) :=
  have : Decidable (ShapesValid inp) := Classical.propDecidable _
  if ShapesValid inp then
    match parseOrder inp.order with
    | none => Except.error SolveError.unsupportedOrder
    | some ord =>
        Except.ok (solveCore (sampleCount inp) (modalMat inp)
          (toMatrix inp.mMat (dofCount inp)) (toMatrix inp.cMat (dofCount inp))
          (toMatrix inp.kMat (dofCount inp)) inp.dt
          (fun i => buildPair omegaTolDefault zetaTolDefault (modeOmega inp i)
            (modeZeta inp i) inp.dt ord)
          (forceFun inp.force (dofCount inp))
          (icVec inp.x0 (dofCount inp)) (icVec inp.v0 (dofCount inp)))
  else Except.error SolveError.shapeError

/-- Claim C5: solve fails with ShapeError exactly when the mass, damping and
stiffness matrices are not all square of equal size or a caller-supplied
initial-condition vector does not match the mode count; the check runs at
entry, so an invalid input produces the bare error and nothing else. -/
theorem claim_C5_shape_validation (inp : RawInput) :
    solveTop inp = Except.error SolveError.shapeError ↔ ¬ ShapesValid inp := by
  classical
  by_cases h : ShapesValid inp
  · simp only [solveTop, if_pos h]
    cases hp : parseOrder inp.order <;> simp [h]
  · simp [solveTop, if_neg h, h]

/-- The states of all modes after k steps depend only on the forcing samples
up to index k. -/
lemma stateAt_force_congr {n : ℕ} (Φ M : Matrix (Fin n) (Fin n) ℝ)
    (pairs : Fin n → TransPair ℝ) (f f' : ℕ → Fin n → ℝ) (x0 v0 : Fin n → ℝ)
    (k : ℕ) (hf : ∀ j, j ≤ k → f j = f' j) :
    stateAt pairs (modalForce Φ f) (initState Φ M x0 v0) k =
      stateAt pairs (modalForce Φ f') (initState Φ M x0 v0) k := by
  funext i
  refine stateAt_mode_congr _ _ _ _ _ _ i rfl rfl k ?_
  intro j hj
  unfold modalForce
  rw [hf j hj]

/-- Claim C10: the solver is deterministic — identical inputs give identical
outputs, and the output of the core is a function of exactly the supplied
data: it reads no forcing sample at or beyond the sample count, so any two
forcing functions agreeing on the s given samples produce the same response
history. -/
theorem claim_C10_deterministic :
    (∀ inp inp' : RawInput, inp = inp' → HEq (solveTop inp) (solveTop inp')) ∧
    (∀ (n s : ℕ) (Φ M C K : Matrix (Fin n) (Fin n) ℝ) (dt : ℝ)
      (pairs : Fin n → TransPair ℝ) (f f' : ℕ → Fin n → ℝ) (x0 v0 : Fin n → ℝ),
      (∀ k, k < s → f k = f' k) →
      solveCore s Φ M C K dt pairs f x0 v0 =
        solveCore s Φ M C K dt pairs f' x0 v0) := by
  constructor
  · intro inp inp' he
    subst he
    rfl
  · intro n s Φ M C K dt pairs f f' x0 v0 hfe
    have hst : ∀ k, k < s →
        stateAt pairs (modalForce Φ f) (initState Φ M x0 v0) k =
          stateAt pairs (modalForce Φ f') (initState Φ M x0 v0) k := by
      intro k hk
      exact stateAt_force_congr Φ M pairs f f' x0 v0 k
        (fun j hj => hfe j (lt_of_le_of_lt hj hk))
    have hd : ∀ k, k < s →
        dispAt Φ M pairs f x0 v0 k = dispAt Φ M pairs f' x0 v0 k := by
      intro k hk
      unfold dispAt
      rw [hst k hk]
    have hv : ∀ k, k < s →
        velAt Φ M pairs f x0 v0 k = velAt Φ M pairs f' x0 v0 k := by
      intro k hk
      unfold velAt
      rw [hst k hk]
    unfold solveCore
    congr 1
    · exact List.map_congr_left (fun k hk => hd k (List.mem_range.mp hk))
    · exact List.map_congr_left (fun k hk => hv k (List.mem_range.mp hk))
    · refine List.map_congr_left (fun k hk => ?_)
      have hks := List.mem_range.mp hk
      unfold accelAt
      rw [hfe k hks, hd k hks, hv k hks]

/-- Witness for C10 at a concrete input: two forcing functions that agree on
the single given sample but differ beyond it. -/
theorem claim_C10_witness :
    (∀ k : ℕ, k < 1 →
      (fun _ : Fin 1 => if k = 0 then (1 : ℝ) else 5) =
        (fun _ : Fin 1 => if k = 0 then (1 : ℝ) else 7)) ∧
    solveCore 1 (1 : Matrix (Fin 1) (Fin 1) ℝ) 1 0 0 (1 : ℝ) (fun _ => (1, 0))
        (fun k _ => if k = 0 then (1 : ℝ) else 5) 0 0 =
      solveCore 1 (1 : Matrix (Fin 1) (Fin 1) ℝ) 1 0 0 (1 : ℝ) (fun _ => (1, 0))
        (fun k _ => if k = 0 then (1 : ℝ) else 7) 0 0 := by
  have hagree : ∀ k : ℕ, k < 1 →
      (fun _ : Fin 1 => if k = 0 then (1 : ℝ) else 5) =
        (fun _ : Fin 1 => if k = 0 then (1 : ℝ) else 7) := by
    intro k hk
    have hk0 : k = 0 := by omega
    subst hk0
    rfl
  exact ⟨hagree, claim_C10_deterministic.2 1 1 1 1 0 0 (1 : ℝ) (fun _ => (1, 0))
    (fun k _ => if k = 0 then (1 : ℝ) else 5)
    (fun k _ => if k = 0 then (1 : ℝ) else 7) 0 0 hagree⟩

/-- Modelled from the spec: the defining conditions of the four damping
regimes (§4.2), with the tolerance policy of §9. -/
def regimeSpec (ωtol ζtol ω ζ : ℝ) : Regime → Prop
  | Regime.rigid => ω ≤ ωtol
  | Regime.under => ωtol < ω ∧ ζ < 1 - ζtol
  | Regime.critical => ωtol < ω ∧ 1 - ζtol ≤ ζ ∧ ζ ≤ 1 + ζtol
  | Regime.over => ωtol < ω ∧ 1 + ζtol < ζ

/-- Claim C6: the transition-matrix builder fails with DegenerateModeError
exactly when ω is negative, and for every non-negative ω it returns the
mode's transition pair without failing. -/
theorem claim_C6_degenerate_mode (ωtol ζtol ω ζ h : ℝ) (ord : InterpOrder) :
    (buildTransition ωtol ζtol ω ζ h ord =
        Except.error SolveError.degenerateMode ↔ ω < 0) ∧
    (0 ≤ ω → buildTransition ωtol ζtol ω ζ h ord =
        Except.ok (buildPair ωtol ζtol ω ζ h ord)) := by
  constructor
  · by_cases hω : ω < 0 <;> simp [buildTransition, hω]
  · intro h0
    rw [buildTransition, if_neg (not_lt.mpr h0)]

/-- Witness for C6 at a concrete non-negative frequency. -/
theorem claim_C6_witness :
    (0 : ℝ) ≤ 1 ∧
    buildTransition 0 0 1 (1 / 2) (1 / 10) InterpOrder.linear =
      Except.ok (buildPair 0 0 1 (1 / 2) (1 / 10) InterpOrder.linear) :=
  ⟨by norm_num,
    (claim_C6_degenerate_mode 0 0 1 (1 / 2) (1 / 10) InterpOrder.linear).2
      (by norm_num)⟩

/-- Claim C7: for any mode with non-negative ω the classification assigns
exactly one of the four regimes; the rigid-body closed form is a function of
the step alone (no division by ω, no ζ), and the critically damped closed
form is the ζ-free limiting form whose only denominators are powers of the
(classified nonzero) ω and the step. -/
theorem claim_C7_regime_partition_no_div (ωtol ζtol ω ζ h : ℝ)
    (ord : InterpOrder) (hωtol : 0 ≤ ωtol) (hζtol : 0 ≤ ζtol) (hω : 0 ≤ ω) :
    (∃! r : Regime, regimeSpec ωtol ζtol ω ζ r) ∧
    (∀ r : Regime, classify ωtol ζtol ω ζ = r ↔ regimeSpec ωtol ζtol ω ζ r) ∧
    (classify ωtol ζtol ω ζ = Regime.rigid →
      buildPair ωtol ζtol ω ζ h ord = (rigidA h, rigidB h ord)) ∧
    (classify ωtol ζtol ω ζ = Regime.critical →
      buildPair ωtol ζtol ω ζ h ord =
        (critA ω h, forceB (critA ω h) ω 1 h ord) ∧ ω ≠ 0) := by
  have hiff : ∀ r : Regime,
      classify ωtol ζtol ω ζ = r ↔ regimeSpec ωtol ζtol ω ζ r := by
    intro r
    unfold classify
    split_ifs with h1 h2 h3 <;> cases r <;> simp only [regimeSpec] <;>
      simp <;>
      first
        | linarith
        | (refine ⟨by linarith, by linarith⟩)
        | (refine ⟨by linarith, by linarith, by linarith⟩)
        | (rintro h4 h5; linarith)
        | (rintro h4 h5 h6; linarith)
        | (intro h4; linarith)
  refine ⟨⟨classify ωtol ζtol ω ζ, (hiff _).mp rfl,
      fun r' hr' => ((hiff r').mpr hr').symm⟩, hiff, ?_, ?_⟩
  · intro hcls
    unfold buildPair
    rw [hcls]
    rfl
  · intro hcls
    have hsp := (hiff Regime.critical).mp hcls
    refine ⟨?_, ne_of_gt (lt_of_le_of_lt hωtol hsp.1)⟩
    unfold buildPair
    rw [hcls]
    rfl

/-- Witness for C7 at a concrete critically damped mode (ω = 1, ζ = 1). -/
theorem claim_C7_witness :
    (0 : ℝ) ≤ 0 ∧ (0 : ℝ) ≤ 1 / 10 ∧ (0 : ℝ) ≤ 1 ∧
    ((∃! r : Regime, regimeSpec 0 (1 / 10) 1 1 r) ∧
     (∀ r : Regime, classify 0 (1 / 10) 1 1 = r ↔ regimeSpec 0 (1 / 10) 1 1 r) ∧
     (classify 0 (1 / 10) 1 1 = Regime.rigid →
       buildPair 0 (1 / 10) 1 1 (1 / 2) InterpOrder.linear =
         (rigidA (1 / 2), rigidB (1 / 2) InterpOrder.linear)) ∧
     (classify 0 (1 / 10) 1 1 = Regime.critical →
       buildPair 0 (1 / 10) 1 1 (1 / 2) InterpOrder.linear =
         (critA 1 (1 / 2), forceB (critA 1 (1 / 2)) 1 1 (1 / 2) InterpOrder.linear) ∧
       (1 : ℝ) ≠ 0)) :=
  ⟨by norm_num, by norm_num, by norm_num,
    claim_C7_regime_partition_no_div 0 (1 / 10) 1 1 (1 / 2) InterpOrder.linear
      (by norm_num) (by norm_num) (by norm_num)⟩

lemma tendsto_sin_div_self :
    Tendsto (fun x : ℝ => Real.sin x / x) (𝓝[≠] (0 : ℝ)) (𝓝 1) := by
  have hd := Real.hasDerivAt_sin 0
  rw [Real.cos_zero] at hd
  exact (hasDerivAt_iff_tendsto_slope.mp hd).congr
    (fun x => by rw [slope_def_field, Real.sin_zero, sub_zero, sub_zero])

lemma tendsto_sinh_div_self :
    Tendsto (fun x : ℝ => Real.sinh x / x) (𝓝[≠] (0 : ℝ)) (𝓝 1) := by
  have hd := Real.hasDerivAt_sinh 0
  rw [Real.cosh_zero] at hd
  exact (hasDerivAt_iff_tendsto_slope.mp hd).congr
    (fun x => by rw [slope_def_field, Real.sinh_zero, sub_zero, sub_zero])

/-- Limits of the four shared entry shapes of the oscillatory
state-transition matrices, given the limits of their ingredients. -/
lemma entryA_limits {l : Filter ℝ} {F Cc Sg : ℝ → ℝ} {ω h : ℝ}
    (hF : Tendsto F l (𝓝 (Real.exp (-(ω * h)))))
    (hC : Tendsto Cc l (𝓝 1)) (hS : Tendsto Sg l (𝓝 h))
    (hid : Tendsto (fun ζ : ℝ => ζ) l (𝓝 1)) :
    Tendsto (fun ζ => F ζ * (Cc ζ + ζ * ω * Sg ζ)) l
      (𝓝 (Real.exp (-(ω * h)) * (1 + ω * h))) ∧
    Tendsto (fun ζ => F ζ * Sg ζ) l (𝓝 (Real.exp (-(ω * h)) * h)) ∧
    Tendsto (fun ζ => -(ω ^ 2) * (F ζ * Sg ζ)) l
      (𝓝 (-(ω ^ 2) * (Real.exp (-(ω * h)) * h))) ∧
    Tendsto (fun ζ => F ζ * (Cc ζ - ζ * ω * Sg ζ)) l
      (𝓝 (Real.exp (-(ω * h)) * (1 - ω * h))) := by
  refine ⟨?_, hF.mul hS, (hF.mul hS).const_mul _, ?_⟩
  · have := hF.mul (hC.add ((hid.mul_const ω).mul hS))
    simpa using this
  · have := hF.mul (hC.sub ((hid.mul_const ω).mul hS))
    simpa using this

/-- The force-influence matrix is entrywise continuous in ζ and in the
state-transition entries it is built from (its denominators are fixed data,
never the vanishing singular term). -/
lemma forceB_tendsto {l : Filter ℝ} {Af : ℝ → Matrix (Fin 2) (Fin 2) ℝ}
    {A2 : Matrix (Fin 2) (Fin 2) ℝ} (ω h : ℝ) (ord : InterpOrder)
    (hA : ∀ i j, Tendsto (fun ζ => Af ζ i j) l (𝓝 (A2 i j)))
    (hid : Tendsto (fun ζ : ℝ => ζ) l (𝓝 1)) :
    ∀ i j, Tendsto (fun ζ => forceB (Af ζ) ω ζ h ord i j) l
      (𝓝 (forceB A2 ω 1 h ord i j)) := by
  have hr1 : Tendsto
      (fun ζ => 2 * ζ * (Af ζ 0 0 - 1) / ω ^ 3 - Af ζ 0 1 / ω ^ 2 + h / ω ^ 2) l
      (𝓝 (2 * 1 * (A2 0 0 - 1) / ω ^ 3 - A2 0 1 / ω ^ 2 + h / ω ^ 2)) :=
    ((((tendsto_const_nhds.mul hid).mul ((hA 0 0).sub tendsto_const_nhds)).div_const
      _).sub ((hA 0 1).div_const _)).add tendsto_const_nhds
  have hr2 : Tendsto
      (fun ζ => 2 * ζ * Af ζ 1 0 / ω ^ 3 + (1 - Af ζ 1 1) / ω ^ 2) l
      (𝓝 (2 * 1 * A2 1 0 / ω ^ 3 + (1 - A2 1 1) / ω ^ 2)) :=
    (((tendsto_const_nhds.mul hid).mul (hA 1 0)).div_const _).add
      ((tendsto_const_nhds.sub (hA 1 1)).div_const _)
  have hcon1 : Tendsto (fun ζ => (1 - Af ζ 0 0) / ω ^ 2) l
      (𝓝 ((1 - A2 0 0) / ω ^ 2)) :=
    (tendsto_const_nhds.sub (hA 0 0)).div_const _
  have hcon2 : Tendsto (fun ζ => -(Af ζ 1 0) / ω ^ 2) l
      (𝓝 (-(A2 1 0) / ω ^ 2)) :=
    ((hA 1 0).neg).div_const _
  intro i j
  cases ord <;> fin_cases i <;> fin_cases j <;>
    simp only [forceB, Matrix.cons_val_zero, Matrix.cons_val_one,
      Matrix.head_cons, Fin.zero_eta, Fin.mk_one, Fin.isValue]
  · exact hcon1
  · exact tendsto_const_nhds
  · exact hcon2
  · exact tendsto_const_nhds
  · exact hcon1.sub (hr1.div_const h)
  · exact hr1.div_const h
  · exact hcon2.sub (hr2.div_const h)
  · exact hr2.div_const h
  · exact hcon1.sub (hr1.div_const h)
  · exact hr1.div_const h
  · exact hcon2.sub (hr2.div_const h)
  · exact hr2.div_const h

/-- Entrywise limit of the underdamped state-transition matrix as ζ → 1⁻:
it approaches the critically damped limiting form. -/
lemma underA_tendsto (ω h : ℝ) (hω : 0 < ω) (hh : 0 < h) :
    ∀ i j, Tendsto (fun ζ => underA ω ζ h i j) (𝓝[<] (1 : ℝ))
      (𝓝 (critA ω h i j)) := by
  have hid : Tendsto (fun ζ : ℝ => ζ) (𝓝[<] (1 : ℝ)) (𝓝 1) :=
    tendsto_id.mono_right nhdsWithin_le_nhds
  have hmem : ∀ᶠ ζ in 𝓝[<] (1 : ℝ), ζ ∈ Set.Ioo (-1 : ℝ) 1 :=
    Ioo_mem_nhdsWithin_Iio (Set.mem_Ioc.mpr (by norm_num))
  have hpos : ∀ᶠ ζ in 𝓝[<] (1 : ℝ), 0 < ω * Real.sqrt (1 - ζ ^ 2) := by
    filter_upwards [hmem] with ζ hζ
    have h1 : 0 < 1 - ζ ^ 2 := by nlinarith [hζ.1, hζ.2]
    exact mul_pos hω (Real.sqrt_pos.mpr h1)
  have hgz : Tendsto (fun ζ : ℝ => ω * Real.sqrt (1 - ζ ^ 2)) (𝓝[<] (1 : ℝ))
      (𝓝 0) := by
    have h1m : Tendsto (fun ζ : ℝ => 1 - ζ ^ 2) (𝓝[<] (1 : ℝ)) (𝓝 0) := by
      have hone : Tendsto (fun _ : ℝ => (1 : ℝ)) (𝓝[<] (1 : ℝ)) (𝓝 1) :=
        tendsto_const_nhds
      have := hone.sub (hid.pow 2)
      simpa using this
    have hsq : Tendsto (fun ζ : ℝ => Real.sqrt (1 - ζ ^ 2)) (𝓝[<] (1 : ℝ))
        (𝓝 0) := by
      have := (Real.continuous_sqrt.tendsto 0).comp h1m
      simpa [Real.sqrt_zero] using this
    simpa using hsq.const_mul ω
  have hgh : Tendsto (fun ζ : ℝ => ω * Real.sqrt (1 - ζ ^ 2) * h)
      (𝓝[<] (1 : ℝ)) (𝓝[≠] (0 : ℝ)) := by
    rw [tendsto_nhdsWithin_iff]
    constructor
    · simpa using hgz.mul_const h
    · filter_upwards [hpos] with ζ hζ
      exact Set.mem_compl_singleton_iff.mpr (ne_of_gt (mul_pos hζ hh))
  have hS : Tendsto
      (fun ζ : ℝ => Real.sin (ω * Real.sqrt (1 - ζ ^ 2) * h) /
        (ω * Real.sqrt (1 - ζ ^ 2))) (𝓝[<] (1 : ℝ)) (𝓝 h) := by
    have hcomp : Tendsto
        (fun ζ : ℝ => Real.sin (ω * Real.sqrt (1 - ζ ^ 2) * h) /
          (ω * Real.sqrt (1 - ζ ^ 2) * h)) (𝓝[<] (1 : ℝ)) (𝓝 1) :=
      tendsto_sin_div_self.comp hgh
    have h2 := hcomp.mul_const h
    rw [one_mul] at h2
    refine h2.congr' ?_
    filter_upwards [hpos] with ζ hζ
    field_simp
    ring
  have hF : Tendsto (fun ζ : ℝ => Real.exp (-(ζ * ω * h))) (𝓝[<] (1 : ℝ))
      (𝓝 (Real.exp (-(ω * h)))) := by
    have harg : Tendsto (fun ζ : ℝ => -(ζ * ω * h)) (𝓝[<] (1 : ℝ))
        (𝓝 (-(ω * h))) := by
      simpa using ((hid.mul_const ω).mul_const h).neg
    exact (Real.continuous_exp.tendsto _).comp harg
  have hC : Tendsto (fun ζ : ℝ => Real.cos (ω * Real.sqrt (1 - ζ ^ 2) * h))
      (𝓝[<] (1 : ℝ)) (𝓝 1) := by
    have hgh0 : Tendsto (fun ζ : ℝ => ω * Real.sqrt (1 - ζ ^ 2) * h)
        (𝓝[<] (1 : ℝ)) (𝓝 0) := by
      simpa using hgz.mul_const h
    have := (Real.continuous_cos.tendsto 0).comp hgh0
    simpa [Real.cos_zero] using this
  have hall := entryA_limits hF hC hS hid
  intro i j
  fin_cases i <;> fin_cases j <;>
    simp only [underA, critA, Matrix.cons_val_zero, Matrix.cons_val_one,
      Matrix.head_cons, Fin.zero_eta, Fin.mk_one, Fin.isValue]
  · exact hall.1
  · exact hall.2.1
  · exact hall.2.2.1
  · exact hall.2.2.2

/-- Entrywise limit of the overdamped state-transition matrix as ζ → 1⁺:
it approaches the critically damped limiting form. -/
lemma overA_tendsto (ω h : ℝ) (hω : 0 < ω) (hh : 0 < h) :
    ∀ i j, Tendsto (fun ζ => overA ω ζ h i j) (𝓝[>] (1 : ℝ))
      (𝓝 (critA ω h i j)) := by
  have hid : Tendsto (fun ζ : ℝ => ζ) (𝓝[>] (1 : ℝ)) (𝓝 1) :=
    tendsto_id.mono_right nhdsWithin_le_nhds
  have hmem : ∀ᶠ ζ in 𝓝[>] (1 : ℝ), ζ ∈ Set.Ioo (1 : ℝ) 2 :=
    Ioo_mem_nhdsWithin_Ioi (Set.mem_Ico.mpr (by norm_num))
  have hpos : ∀ᶠ ζ in 𝓝[>] (1 : ℝ), 0 < ω * Real.sqrt (ζ ^ 2 - 1) := by
    filter_upwards [hmem] with ζ hζ
    have h1 : 0 < ζ ^ 2 - 1 := by nlinarith [hζ.1, hζ.2]
    exact mul_pos hω (Real.sqrt_pos.mpr h1)
  have hgz : Tendsto (fun ζ : ℝ => ω * Real.sqrt (ζ ^ 2 - 1)) (𝓝[>] (1 : ℝ))
      (𝓝 0) := by
    have h1m : Tendsto (fun ζ : ℝ => ζ ^ 2 - 1) (𝓝[>] (1 : ℝ)) (𝓝 0) := by
      have hone : Tendsto (fun _ : ℝ => (1 : ℝ)) (𝓝[>] (1 : ℝ)) (𝓝 1) :=
        tendsto_const_nhds
      have := (hid.pow 2).sub hone
      simpa using this
    have hsq : Tendsto (fun ζ : ℝ => Real.sqrt (ζ ^ 2 - 1)) (𝓝[>] (1 : ℝ))
        (𝓝 0) := by
      have := (Real.continuous_sqrt.tendsto 0).comp h1m
      simpa [Real.sqrt_zero] using this
    simpa using hsq.const_mul ω
  have hgh : Tendsto (fun ζ : ℝ => ω * Real.sqrt (ζ ^ 2 - 1) * h)
      (𝓝[>] (1 : ℝ)) (𝓝[≠] (0 : ℝ)) := by
    rw [tendsto_nhdsWithin_iff]
    constructor
    · simpa using hgz.mul_const h
    · filter_upwards [hpos] with ζ hζ
      exact Set.mem_compl_singleton_iff.mpr (ne_of_gt (mul_pos hζ hh))
  have hS : Tendsto
      (fun ζ : ℝ => Real.sinh (ω * Real.sqrt (ζ ^ 2 - 1) * h) /
        (ω * Real.sqrt (ζ ^ 2 - 1))) (𝓝[>] (1 : ℝ)) (𝓝 h) := by
    have hcomp : Tendsto
        (fun ζ : ℝ => Real.sinh (ω * Real.sqrt (ζ ^ 2 - 1) * h) /
          (ω * Real.sqrt (ζ ^ 2 - 1) * h)) (𝓝[>] (1 : ℝ)) (𝓝 1) :=
      tendsto_sinh_div_self.comp hgh
    have h2 := hcomp.mul_const h
    rw [one_mul] at h2
    refine h2.congr' ?_
    filter_upwards [hpos] with ζ hζ
    field_simp
    ring
  have hF : Tendsto (fun ζ : ℝ => Real.exp (-(ζ * ω * h))) (𝓝[>] (1 : ℝ))
      (𝓝 (Real.exp (-(ω * h)))) := by
    have harg : Tendsto (fun ζ : ℝ => -(ζ * ω * h)) (𝓝[>] (1 : ℝ))
        (𝓝 (-(ω * h))) := by
      simpa using ((hid.mul_const ω).mul_const h).neg
    exact (Real.continuous_exp.tendsto _).comp harg
  have hC : Tendsto (fun ζ : ℝ => Real.cosh (ω * Real.sqrt (ζ ^ 2 - 1) * h))
      (𝓝[>] (1 : ℝ)) (𝓝 1) := by
    have hgh0 : Tendsto (fun ζ : ℝ => ω * Real.sqrt (ζ ^ 2 - 1) * h)
        (𝓝[>] (1 : ℝ)) (𝓝 0) := by
      simpa using hgz.mul_const h
    have := (Real.continuous_cosh.tendsto 0).comp hgh0
    simpa [Real.cosh_zero] using this
  have hall := entryA_limits hF hC hS hid
  intro i j
  fin_cases i <;> fin_cases j <;>
    simp only [overA, critA, Matrix.cons_val_zero, Matrix.cons_val_one,
      Matrix.head_cons, Fin.zero_eta, Fin.mk_one, Fin.isValue]
  · exact hall.1
  · exact hall.2.1
  · exact hall.2.2.1
  · exact hall.2.2.2

/-- Claim C9: for fixed ω > 0 and Δt > 0 the transition-matrix outputs are
continuous in ζ across ζ = 1: the underdamped pair as ζ → 1⁻ and the
overdamped pair as ζ → 1⁺ both converge, entry by entry, to the critically
damped closed form (so the three agree within any tolerance near ζ = 1). -/
theorem claim_C9_regime_continuity (ω h : ℝ) (ord : InterpOrder)
    (hω : 0 < ω) (hh : 0 < h) :
    (∀ i j, Tendsto (fun ζ => underA ω ζ h i j) (𝓝[<] (1 : ℝ))
      (𝓝 (critA ω h i j))) ∧
    (∀ i j, Tendsto (fun ζ => forceB (underA ω ζ h) ω ζ h ord i j)
      (𝓝[<] (1 : ℝ)) (𝓝 (forceB (critA ω h) ω 1 h ord i j))) ∧
    (∀ i j, Tendsto (fun ζ => overA ω ζ h i j) (𝓝[>] (1 : ℝ))
      (𝓝 (critA ω h i j))) ∧
    (∀ i j, Tendsto (fun ζ => forceB (overA ω ζ h) ω ζ h ord i j)
      (𝓝[>] (1 : ℝ)) (𝓝 (forceB (critA ω h) ω 1 h ord i j))) := by
  have hidl : Tendsto (fun ζ : ℝ => ζ) (𝓝[<] (1 : ℝ)) (𝓝 1) :=
    tendsto_id.mono_right nhdsWithin_le_nhds
  have hidr : Tendsto (fun ζ : ℝ => ζ) (𝓝[>] (1 : ℝ)) (𝓝 1) :=
    tendsto_id.mono_right nhdsWithin_le_nhds
  exact ⟨underA_tendsto ω h hω hh,
    forceB_tendsto ω h ord (underA_tendsto ω h hω hh) hidl,
    overA_tendsto ω h hω hh,
    forceB_tendsto ω h ord (overA_tendsto ω h hω hh) hidr⟩

/-- Witness for C9 at ω = 1, Δt = 1, linear interpolation. -/
theorem claim_C9_witness :
    (0 : ℝ) < 1 ∧
    ((∀ i j, Tendsto (fun ζ => underA 1 ζ 1 i j) (𝓝[<] (1 : ℝ))
      (𝓝 (critA 1 1 i j))) ∧
    (∀ i j, Tendsto (fun ζ => forceB (underA 1 ζ 1) 1 ζ 1 InterpOrder.linear i j)
      (𝓝[<] (1 : ℝ)) (𝓝 (forceB (critA 1 1) 1 1 1 InterpOrder.linear i j))) ∧
    (∀ i j, Tendsto (fun ζ => overA 1 ζ 1 i j) (𝓝[>] (1 : ℝ))
      (𝓝 (critA 1 1 i j))) ∧
    (∀ i j, Tendsto (fun ζ => forceB (overA 1 ζ 1) 1 ζ 1 InterpOrder.linear i j)
      (𝓝[>] (1 : ℝ)) (𝓝 (forceB (critA 1 1) 1 1 1 InterpOrder.linear i j)))) :=
  ⟨by norm_num,
    claim_C9_regime_continuity 1 1 InterpOrder.linear (by norm_num) (by norm_num)⟩

end PyYeti
